import Mathlib

/-!
Verification of the `OpenTitanUsbdev` driver core (packet-buffer allocator,
endpoint configuration and packet transfer engine).

The development shallowly embeds the driver's operations as pure functions
over an explicit register state.  Machine integers (`uint8_t`, `uint32_t`,
`uint64_t`) are modelled as `Nat`, with explicit 32-bit masking (`land` with
`2 ^ 32 - 1`-derived masks) exactly where the C++ code performs it.  Byte and
word memory is modelled as `Nat → Nat` maps from byte addresses to byte
values; a 32-bit memory access reads or writes four consecutive byte cells
little-endian, matching the RISC-V target of the driver.
-/

namespace Usbdev

/-- `OpenTitanUsbdev::MaxPacketLen`: maximum packet length in bytes. -/
def MaxPacketLen : Nat := 64

/-- `OpenTitanUsbdev::NumBuffers`: number of packet buffers. -/
def NumBuffers : Nat := 32

/-- `OpenTitanUsbdev::MaxEndpoints`: endpoints supported per direction. -/
def MaxEndpoints : Nat := 12

/-- `OpenTitanUsbdev::BufferStartAddress`: byte offset of packet buffer
memory within the device MMIO region. -/
def BufferStartAddress : Nat := 0x800

/-- `UsbStatusField::AvailableSetupFull` (bit 30 of the status register). -/
def AvailableSetupFull : Nat := 1 <<< 30

/-- `UsbStatusField::AvailableOutFull` (bit 23 of the status register). -/
def AvailableOutFull : Nat := 1 <<< 23

/-- `UsbStatusField::ReceiveDepth` mask (bits 24-27 of the status register). -/
def ReceiveDepthMask : Nat := 0xF <<< 24

/-- `UsbControlField::Enable` (bit 0 of the control register). -/
def ControlEnable : Nat := 1

/-- `UsbControlField::DeviceAddress` mask (bits 16-22 of the control
register). -/
def DeviceAddressMask : Nat := 0x7F <<< 16

/-- `ConfigInField::BufferId` mask (bits 0-4 of a `configIn` register). -/
def ConfigInBufferIdMask : Nat := 0x1F

/-- `ConfigInField::Size` mask (bits 8-14 of a `configIn` register). -/
def ConfigInSizeMask : Nat := 0x7F <<< 8

/-- `ConfigInField::Ready` (bit 31 of a `configIn` register). -/
def ConfigInReady : Nat := 1 <<< 31

/-- `ReceiveBufferField::BufferId` mask (bits 0-4 of a receive FIFO word). -/
def ReceiveBufferIdMask : Nat := 0x1F

/-- `ReceiveBufferField::Size` mask (bits 8-14 of a receive FIFO word). -/
def ReceiveSizeMask : Nat := 0x7F <<< 8

/-- `ReceiveBufferField::Setup` (bit 19 of a receive FIFO word). -/
def ReceiveSetupBit : Nat := 1 <<< 19

/-- `ReceiveBufferField::EndpointId` mask (bits 20-23 of a receive FIFO
word). -/
def ReceiveEndpointIdMask : Nat := 0xF <<< 20

/-- Bitwise complement of a 32-bit value: the C++ `~m` on a `uint32_t`
operand, i.e. XOR with the all-ones 32-bit word. -/
def not32 (m : Nat) : Nat := (2 ^ 32 - 1) ^^^ m

/-- Byte-addressed memory: each cell holds one byte (a value below 256). -/
abbrev Mem : Type := Nat → Nat

/-- Little-endian 32-bit load from the four byte cells of word index `w`
(byte addresses `4*w .. 4*w+3`).  The byte lanes occupy disjoint bit ranges,
so their weighted sum is the assembled word. -/
def readWord (m : Mem) (w : Nat) : Nat :=
  m (4 * w) + 2 ^ 8 * m (4 * w + 1) + 2 ^ 16 * m (4 * w + 2) +
    2 ^ 24 * m (4 * w + 3)

/-- Little-endian 32-bit store of value `v` to word index `w`: each of the
four byte cells receives its lane of `v`. -/
def writeWord (m : Mem) (w v : Nat) : Mem := fun a =>
  if a = 4 * w then v % 2 ^ 8
  else if a = 4 * w + 1 then v / 2 ^ 8 % 2 ^ 8
  else if a = 4 * w + 2 then v / 2 ^ 16 % 2 ^ 8
  else if a = 4 * w + 3 then v / 2 ^ 24 % 2 ^ 8
  else m a

/-- 8-bit store of value `v` (truncated to a byte, as by a cast to
`uint8_t`) at byte address `a`. -/
def writeByte (m : Mem) (a v : Nat) : Mem := fun x =>
  if x = a then v % 2 ^ 8 else m x

/-- `*destination++ = *source++;` repeated `n` times: copy `n` consecutive
32-bit words from word index `sb` of `src` to word index `db` of `dst`. -/
def copyWords (dst : Mem) (db : Nat) (src : Mem) (sb : Nat) : Nat → Mem
  | 0 => dst
  | n + 1 => copyWords (writeWord dst db (readWord src sb)) (db + 1) src (sb + 1) n

/-- `OpenTitanUsbdev::usbdev_transfer`: copy `size` bytes between the word
pointers `(dst, db)` and `(src, sb)` (memory plus word-index base), using
only 32-bit accesses.  Mirrors the source: the 4-word-unrolled block loop
copies `(size & ~UnrollMask)` bytes (that many / 4 whole words), the single
word loop copies the remaining whole words of `size & UnrollMask`, and the
0-3 trailing bytes are packed into (`toDevice`) or unpacked from
(`!toDevice`) one final 32-bit word. -/
def usbdev_transfer (dst : Mem) (db : Nat) (src : Mem) (sb : Nat)
    (size : Nat) (toDevice : Bool) : Mem :=
  let unrollSize := size &&& not32 0xF
  let dst1 := copyWords dst db src sb (unrollSize / 4)
  let rem := size &&& 0xF
  let dst2 := copyWords dst1 (db + unrollSize / 4) src (sb + unrollSize / 4) (rem / 4)
  let tail := rem % 4
  let db2 := db + unrollSize / 4 + rem / 4
  let sb2 := sb + unrollSize / 4 + rem / 4
  if tail = 0 then dst2
  else if toDevice then
    let tailWord := src (4 * sb2) |||
      (if 1 < tail then src (4 * sb2 + 1) <<< 8 else 0) |||
      (if 2 < tail then src (4 * sb2 + 2) <<< 16 else 0)
    writeWord dst2 db2 tailWord
  else
    let tailWord := readWord src sb2
    let d1 := writeByte dst2 (4 * db2) tailWord
    let d2 := if 1 < tail then writeByte d1 (4 * db2 + 1) (tailWord >>> 8) else d1
    if 2 < tail then writeByte d2 (4 * db2 + 2) (tailWord >>> 16) else d2

/-- The first `n` bytes of memory `m`, as a list. -/
def readBytes (m : Mem) (n : Nat) : List Nat :=
  (List.range n).map m

/-- Word index of packet buffer `bufferId`'s memory:
`OpenTitanUsbdev::buffers` returns the byte offset
`BufferStartAddress + bufferId * MaxPacketLen`, used as a `uint32_t`
pointer. -/
def bufferWordBase (bufferId : Nat) : Nat :=
  (BufferStartAddress + bufferId * MaxPacketLen) / 4

/-- The register state of `OpenTitanUsbdev`, with each 32-bit register as a
`Nat`.  `configIn` is the 12-entry `configIn[MaxEndpoints]` register array;
indices at or above `MaxEndpoints` model whatever memory lies past the end
of the array.  `receiveQueue` backs the `receiveBuffer` FIFO register
(modelled from the spec: reading `receiveBuffer` pops one word).
`bufferMem` is the packet buffer memory starting at `BufferStartAddress`,
indexed here relative to the device base. -/
structure UsbdevState where
  interruptState : Nat
  interruptEnable : Nat
  interruptTest : Nat
  alertTest : Nat
  usbControl : Nat
  endpointOutEnable : Nat
  endpointInEnable : Nat
  usbStatus : Nat
  receiveQueue : List Nat
  receiveEnableSetup : Nat
  receiveEnableOut : Nat
  setNotAcknowledgeOut : Nat
  inSent : Nat
  outStall : Nat
  inStall : Nat
  configIn : Nat → Nat
  outIsochronous : Nat
  inIsochronous : Nat
  outDataToggle : Nat
  inDataToggle : Nat
  phyConfig : Nat
  bufferMem : Mem

/-- Pointwise update of the `configIn` register array at index `i`. -/
def updateConfigIn (f : Nat → Nat) (i v : Nat) : Nat → Nat := fun j =>
  if j = i then v else f j

/-- `OpenTitanUsbdev::configure_out_endpoint`: validate `ep < MaxEndpoints`,
then read-modify-write bit `ep` of the four OUT-side bitmask registers.
Returns the updated state and the `int` result (`0` ok, `-1` error). -/
def configure_out_endpoint (s : UsbdevState) (ep : Nat)
    (enabled setup iso : Bool) : UsbdevState × Int :=
  if ep < MaxEndpoints then
    let epMask := 1 <<< ep
    ({ s with
        endpointOutEnable :=
          (s.endpointOutEnable &&& not32 epMask) ||| (if enabled then epMask else 0),
        receiveEnableSetup :=
          (s.receiveEnableSetup &&& not32 epMask) ||| (if setup then epMask else 0),
        receiveEnableOut :=
          (s.receiveEnableOut &&& not32 epMask) ||| (if enabled then epMask else 0),
        outIsochronous :=
          (s.outIsochronous &&& not32 epMask) ||| (if iso then epMask else 0) }, 0)
  else (s, -1)

/-- `OpenTitanUsbdev::configure_in_endpoint`: validate `ep < MaxEndpoints`,
then read-modify-write bit `ep` of the two IN-side bitmask registers. -/
def configure_in_endpoint (s : UsbdevState) (ep : Nat)
    (enabled iso : Bool) : UsbdevState × Int :=
  if ep < MaxEndpoints then
    let epMask := 1 <<< ep
    ({ s with
        endpointInEnable :=
          (s.endpointInEnable &&& not32 epMask) ||| (if enabled then epMask else 0),
        inIsochronous :=
          (s.inIsochronous &&& not32 epMask) ||| (if iso then epMask else 0) }, 0)
  else (s, -1)

/-- `OpenTitanUsbdev::set_ep_stalling`: validate `ep < MaxEndpoints`, then
read-modify-write bit `ep` of `outStall` and `inStall`. -/
def set_ep_stalling (s : UsbdevState) (ep : Nat) (stalling : Bool) :
    UsbdevState × Int :=
  if ep < MaxEndpoints then
    let epMask := 1 <<< ep
    ({ s with
        outStall := (s.outStall &&& not32 epMask) ||| (if stalling then epMask else 0),
        inStall := (s.inStall &&& not32 epMask) ||| (if stalling then epMask else 0) }, 0)
  else (s, -1)

/-- `OpenTitanUsbdev::set_device_address`: validate `address < 0x80`, then
write `address` into the `DeviceAddress` field of the control register,
leaving the other control bits as read. -/
def set_device_address (s : UsbdevState) (address : Nat) : UsbdevState × Int :=
  if address < 0x80 then
    ({ s with usbControl :=
        (s.usbControl &&& not32 DeviceAddressMask) ||| (address <<< 16) }, 0)
  else (s, -1)

/-- `OpenTitanUsbdev::send_packet`: if `size` is nonzero, transfer `size`
bytes from `data` into buffer `buf_num`'s packet memory; then write
`configIn[ep]` twice, first with the buffer id and size, then OR-ing in the
`Ready` bit.  Returns the updated state, the list of values written to
`configIn[ep]` in program order, and the `int` result. -/
def send_packet (s : UsbdevState) (buf_num ep : Nat) (data : Mem)
    (size : Nat) : UsbdevState × List Nat × Int :=
  let s1 := if size ≠ 0 then
      { s with bufferMem :=
          usbdev_transfer s.bufferMem (bufferWordBase buf_num) data 0 size true }
    else s
  let v1 := (buf_num <<< 0) ||| (size <<< 8)
  let s2 := { s1 with configIn := updateConfigIn s1.configIn ep v1 }
  let v2 := s2.configIn ep ||| ConfigInReady
  let s3 := { s2 with configIn := updateConfigIn s2.configIn ep v2 }
  (s3, [v1, v2], 0)

/-- Loop body of `OpenTitanUsbdev::packet_collected`: scan `sent` (the value
read from `inSent` on entry) for a set bit, from endpoint `ep` with
`fuel = MaxEndpoints - ep` iterations left.  On a hit, write the endpoint's
mask to `inSent` — a write-1-to-clear register (modelled from the spec:
`packet_collected` clears the corresponding "sent" bit), so the write
clears exactly that bit — and return the `BufferId` field of that
endpoint's `configIn` register.  Returns (state, ep, buf_num, result);
`buf0` is the caller's `buf_num` variable, returned unchanged when no bit
is found. -/
def packet_collectedGo (s : UsbdevState) (buf0 sent ep : Nat) :
    Nat → UsbdevState × Nat × Nat × Int
  | 0 => (s, ep, buf0, -1)
  | fuel + 1 =>
    let epMask := 1 <<< ep
    if sent &&& epMask ≠ 0 then
      ({ s with inSent := s.inSent &&& not32 epMask }, ep,
        (s.configIn ep &&& ConfigInBufferIdMask) >>> 0, 0)
    else packet_collectedGo s buf0 sent (ep + 1) fuel

/-- `OpenTitanUsbdev::packet_collected`: read `inSent` once, then scan
endpoints `0 .. MaxEndpoints - 1` for the first completed send. -/
def packet_collected (s : UsbdevState) (buf0 : Nat) :
    UsbdevState × Nat × Nat × Int :=
  packet_collectedGo s buf0 s.inSent 0 MaxEndpoints

/-- `OpenTitanUsbdev::recv_packet`: if the `ReceiveDepth` field of the
status register is zero return `-1` leaving everything unchanged; otherwise
pop one word from the receive FIFO, decode its fields, and (if `size ≠ 0`)
transfer the packet bytes from buffer memory into `data`.  The arguments
`ep0 buf0 size0 isSetup0` are the caller's output variables, returned
unchanged on the empty path.  Returns
(state, ep, buf_num, size, is_setup, data, result). -/
def recv_packet (s : UsbdevState) (ep0 buf0 size0 : Nat) (isSetup0 : Bool)
    (data : Mem) : UsbdevState × Nat × Nat × Nat × Bool × Mem × Int :=
  if s.usbStatus &&& ReceiveDepthMask ≠ 0 then
    let rx := s.receiveQueue.headD 0
    let s1 := { s with receiveQueue := s.receiveQueue.tail }
    let ep := (rx &&& ReceiveEndpointIdMask) >>> 20
    let size := (rx &&& ReceiveSizeMask) >>> 8
    let is_setup := rx &&& ReceiveSetupBit ≠ 0
    let buf_num := rx &&& ReceiveBufferIdMask
    let data1 := if size ≠ 0 then
        usbdev_transfer data 0 s1.bufferMem (bufferWordBase buf_num) size false
      else data
    (s1, ep, buf_num, size, is_setup, data1, 0)
  else (s, ep0, buf0, size0, isSetup0, data, -1)

/-- The two hardware reception queues fed by `supply_buffers`, modelled from
the spec: each queue accepts one buffer index per write to its "available
buffer" register, its depth is bounded by a capacity, and fullness is
observable in the status register.  The exact capacities are left as
parameters. -/
structure RxQueues where
  setupCap : Nat
  outCap : Nat
  setupQueue : List Nat
  outQueue : List Nat

/-- The status-register bits driven by the two reception queues (modelled
from the spec): `AvailableSetupFull` and `AvailableOutFull` are set exactly
when the corresponding queue has reached its capacity. -/
def RxQueues.usbStatus (q : RxQueues) : Nat :=
  (if q.setupCap ≤ q.setupQueue.length then AvailableSetupFull else 0) |||
    (if q.outCap ≤ q.outQueue.length then AvailableOutFull else 0)

/-- Effect of writing buffer index `n` to `availableSetupBuffer` (modelled
from the spec): the SETUP reception queue accepts the buffer. -/
def RxQueues.pushSetup (q : RxQueues) (n : Nat) : RxQueues :=
  { q with setupQueue := q.setupQueue ++ [n] }

/-- Effect of writing buffer index `n` to `availableOutBuffer` (modelled
from the spec): the OUT reception queue accepts the buffer. -/
def RxQueues.pushOut (q : RxQueues) (n : Nat) : RxQueues :=
  { q with outQueue := q.outQueue ++ [n] }

/-- Loop body of `OpenTitanUsbdev::supply_buffers`, at loop counter
`buf_num` with `fuel = NumBuffers - buf_num` iterations left.  For each set
bit of `buf_avail`: if the SETUP queue is not full assign the buffer there;
else if the OUT queue is not full assign it there; else break out of the
loop.  Clearing a bit is `buf_avail &= ~(1U << buf_num)`, whose right
operand is the 32-bit complement zero-extended to 64 bits, hence the
`land` with `not32`.  Returns the final queues, the residual bitmap, and
the list of assignments `(toSetupQueue?, buf_num)` in program order. -/
def supplyGo (q : RxQueues) (buf_avail buf_num : Nat) :
    Nat → RxQueues × Nat × List (Bool × Nat)
  | 0 => (q, buf_avail, [])
  | fuel + 1 =>
    if buf_avail &&& (1 <<< buf_num) ≠ 0 then
      if q.usbStatus &&& AvailableSetupFull ≠ 0 then
        if q.usbStatus &&& AvailableOutFull ≠ 0 then
          (q, buf_avail, [])
        else
          let r := supplyGo (q.pushOut buf_num)
            (buf_avail &&& not32 (1 <<< buf_num)) (buf_num + 1) fuel
          (r.1, r.2.1, (false, buf_num) :: r.2.2)
      else
        let r := supplyGo (q.pushSetup buf_num)
          (buf_avail &&& not32 (1 <<< buf_num)) (buf_num + 1) fuel
        (r.1, r.2.1, (true, buf_num) :: r.2.2)
    else supplyGo q buf_avail (buf_num + 1) fuel

/-- `OpenTitanUsbdev::supply_buffers`: offer each buffer whose bit is set in
`buf_avail` (scanning bits `0 .. NumBuffers - 1` in ascending order) to the
hardware reception queues, and return the residual bitmap. -/
def supply_buffers (q : RxQueues) (buf_avail : Nat) :
    RxQueues × Nat × List (Bool × Nat) :=
  supplyGo q buf_avail 0 NumBuffers

/-- Modelled from the spec (§4.1, its words, for comparison with the code):
"For each set bit in ascending index order: if the hardware SETUP-reception
queue is not full, assign the buffer there; else if the OUT-reception queue
is not full, assign it there; else stop processing entirely."  Takes the
remaining room of each queue and the ascending list of donated buffer
indices, and returns the assignments. -/
def supplySpecGo (setupRoom outRoom : Nat) : List Nat → List (Bool × Nat)
  | [] => []
  | b :: bs =>
    if setupRoom ≠ 0 then (true, b) :: supplySpecGo (setupRoom - 1) outRoom bs
    else if outRoom ≠ 0 then (false, b) :: supplySpecGo 0 (outRoom - 1) bs
    else []

/-- Ascending list of the set-bit indices of `x` in `[lo, lo + fuel)`. -/
def bitsFrom (x lo : Nat) : Nat → List Nat
  | 0 => []
  | fuel + 1 =>
    if x.testBit lo then lo :: bitsFrom x (lo + 1) fuel
    else bitsFrom x (lo + 1) fuel

/-- Ascending list of the set-bit indices of `x` among bits
`0 .. NumBuffers - 1`. -/
def setBits (x : Nat) : List Nat := bitsFrom x 0 NumBuffers

/-- An all-zero device state, used to instantiate theorems with hypotheses
at concrete inputs. -/
def zeroState : UsbdevState where
  interruptState := 0
  interruptEnable := 0
  interruptTest := 0
  alertTest := 0
  usbControl := 0
  endpointOutEnable := 0
  endpointInEnable := 0
  usbStatus := 0
  receiveQueue := []
  receiveEnableSetup := 0
  receiveEnableOut := 0
  setNotAcknowledgeOut := 0
  inSent := 0
  outStall := 0
  inStall := 0
  configIn := fun _ => 0
  outIsochronous := 0
  inIsochronous := 0
  outDataToggle := 0
  inDataToggle := 0
  phyConfig := 0
  bufferMem := fun _ => 0

/-- The device state with the `inSent` register replaced by `v`: used to
express a hardware-driven change of the in-sent bits (e.g. a completed IN
transaction) between two driver calls. -/
def withInSent (s : UsbdevState) (v : Nat) : UsbdevState :=
  { s with inSent := v }

/-! ### Bitwise toolkit -/

theorem testBit_not32 (m i : Nat) :
    (not32 m).testBit i = ((decide (i < 32)).xor (m.testBit i)) := by
  unfold not32
  rw [Nat.testBit_xor, Nat.testBit_two_pow_sub_one]

theorem testBit_one_shiftLeft (n i : Nat) :
    (1 <<< n).testBit i = decide (n = i) := by
  rw [Nat.one_shiftLeft, Nat.testBit_two_pow]

theorem land_one_shiftLeft_ne_zero (x n : Nat) :
    (x &&& (1 <<< n) ≠ 0) ↔ x.testBit n = true := by
  rw [Nat.one_shiftLeft, Nat.and_two_pow]
  cases h : x.testBit n <;> simp

theorem testBit_false_of_lt_of_le {x n i : Nat} (hx : x < 2 ^ n) (h : n ≤ i) :
    x.testBit i = false :=
  Nat.testBit_eq_false_of_lt (lt_of_lt_of_le hx (Nat.pow_le_pow_right (by norm_num) h))

theorem clearBit32_testBit (x n i : Nat) (hx : x < 2 ^ 32) :
    (x &&& not32 (1 <<< n)).testBit i = (x.testBit i && !(decide (i = n))) := by
  rw [Nat.testBit_land, testBit_not32, testBit_one_shiftLeft]
  by_cases h32 : i < 32
  · by_cases hin : i = n
    · subst hin
      simp [h32]
    · simp [h32, hin, Ne.symm hin]
  · rw [testBit_false_of_lt_of_le hx (by omega)]
    simp

theorem land_two_pow_sub_one_eq_mod (x k : Nat) : x &&& (2 ^ k - 1) = x % 2 ^ k := by
  apply Nat.eq_of_testBit_eq
  intro i
  rw [Nat.testBit_land, Nat.testBit_two_pow_sub_one, Nat.testBit_mod_two_pow,
    Bool.and_comm]

theorem mod_two_pow_lor (x y n : Nat) :
    (x ||| y) % 2 ^ n = (x % 2 ^ n) ||| (y % 2 ^ n) := by
  apply Nat.eq_of_testBit_eq
  intro i
  rw [Nat.testBit_mod_two_pow, Nat.testBit_lor, Nat.testBit_lor,
    Nat.testBit_mod_two_pow, Nat.testBit_mod_two_pow, Bool.and_or_distrib_left]

theorem shiftRight_lor (x y n : Nat) :
    (x ||| y) >>> n = (x >>> n) ||| (y >>> n) := by
  apply Nat.eq_of_testBit_eq
  intro i
  rw [Nat.testBit_shiftRight, Nat.testBit_lor, Nat.testBit_lor,
    Nat.testBit_shiftRight, Nat.testBit_shiftRight]

theorem lor_two_pow_mul (a b n : Nat) (h : a < 2 ^ n) :
    a ||| 2 ^ n * b = a + 2 ^ n * b := by
  have hpos : 0 < 2 ^ n := Nat.pos_pow_of_pos n (by norm_num)
  have hmod : (a ||| 2 ^ n * b) % 2 ^ n = a := by
    rw [mod_two_pow_lor, Nat.mod_eq_of_lt h, Nat.mul_mod_right]
    simp
  have hdiv : (a ||| 2 ^ n * b) / 2 ^ n = b := by
    have := shiftRight_lor a (2 ^ n * b) n
    rw [Nat.shiftRight_eq_div_pow, Nat.shiftRight_eq_div_pow,
      Nat.shiftRight_eq_div_pow] at this
    rw [this, Nat.div_eq_of_lt h, Nat.mul_div_cancel_left b hpos]
    simp
  calc a ||| 2 ^ n * b
      = 2 ^ n * ((a ||| 2 ^ n * b) / 2 ^ n) + (a ||| 2 ^ n * b) % 2 ^ n :=
        (Nat.div_add_mod _ _).symm
    _ = a + 2 ^ n * b := by rw [hmod, hdiv]; omega

/-! ### Memory lemmas -/

theorem writeWord_frame (m : Mem) (w v a : Nat)
    (h : a < 4 * w ∨ 4 * w + 4 ≤ a) : writeWord m w v a = m a := by
  unfold writeWord
  rw [if_neg (by omega), if_neg (by omega), if_neg (by omega), if_neg (by omega)]

theorem writeWord_byte (m : Mem) (w v j : Nat) (hj : j < 4) :
    writeWord m w v (4 * w + j) = v / 2 ^ (8 * j) % 2 ^ 8 := by
  unfold writeWord
  interval_cases j
  · rw [if_pos (by omega)]
    norm_num
  · rw [if_neg (by omega), if_pos rfl]
  · rw [if_neg (by omega), if_neg (by omega), if_pos rfl]
  · rw [if_neg (by omega), if_neg (by omega), if_neg (by omega), if_pos rfl]

theorem writeByte_frame (m : Mem) (a v x : Nat) (h : x ≠ a) :
    writeByte m a v x = m x := by
  unfold writeByte
  rw [if_neg h]

theorem writeByte_self (m : Mem) (a v : Nat) : writeByte m a v a = v % 2 ^ 8 := by
  unfold writeByte
  rw [if_pos rfl]

theorem readWord_byte (m : Mem) (w j : Nat) (hj : j < 4)
    (hb : ∀ k, k < 4 → m (4 * w + k) < 2 ^ 8) :
    readWord m w / 2 ^ (8 * j) % 2 ^ 8 = m (4 * w + j) := by
  have h0 := hb 0 (by norm_num)
  have h1 := hb 1 (by norm_num)
  have h2 := hb 2 (by norm_num)
  have h3 := hb 3 (by norm_num)
  unfold readWord
  interval_cases j <;> norm_num at h0 h1 h2 h3 ⊢ <;> omega

theorem readWord_congr (m m2 : Mem) (w : Nat)
    (h : ∀ k, k < 4 → m (4 * w + k) = m2 (4 * w + k)) :
    readWord m w = readWord m2 w := by
  have h0 := h 0 (by norm_num)
  have h1 := h 1 (by norm_num)
  have h2 := h 2 (by norm_num)
  have h3 := h 3 (by norm_num)
  unfold readWord
  norm_num at h0 h1 h2 h3
  rw [h0, h1, h2, h3]

theorem copyWords_frame (src : Mem) :
    ∀ (n : Nat) (dst : Mem) (db sb a : Nat),
      (a < 4 * db ∨ 4 * (db + n) ≤ a) → copyWords dst db src sb n a = dst a := by
  intro n
  induction n with
  | zero => intro dst db sb a h; rfl
  | succ n ih =>
    intro dst db sb a h
    show copyWords (writeWord dst db (readWord src sb)) (db + 1) src (sb + 1) n a = dst a
    rw [ih _ _ _ _ (by omega)]
    exact writeWord_frame _ _ _ _ (by omega)

theorem copyWords_byte (src : Mem) :
    ∀ (n : Nat) (dst : Mem) (db sb w j : Nat), w < n → j < 4 →
      copyWords dst db src sb n (4 * (db + w) + j) =
        readWord src (sb + w) / 2 ^ (8 * j) % 2 ^ 8 := by
  intro n
  induction n with
  | zero => intro _ _ _ _ _ hw _; exact absurd hw (by omega)
  | succ n ih =>
    intro dst db sb w j hw hj
    show copyWords (writeWord dst db (readWord src sb)) (db + 1) src (sb + 1) n
        (4 * (db + w) + j) = _
    cases w with
    | zero =>
      rw [copyWords_frame src n _ _ _ _ (by omega)]
      simpa using writeWord_byte dst db (readWord src sb) j hj
    | succ w =>
      have h2 := ih (writeWord dst db (readWord src sb)) (db + 1) (sb + 1) w j
        (by omega) hj
      rw [show 4 * (db + (w + 1)) + j = 4 * ((db + 1) + w) + j from by omega, h2,
        show (sb + 1) + w = sb + (w + 1) from by omega]

theorem copyWords_append (src : Mem) :
    ∀ (m : Nat) (dst : Mem) (db sb n : Nat),
      copyWords (copyWords dst db src sb m) (db + m) src (sb + m) n =
        copyWords dst db src sb (m + n) := by
  intro m
  induction m with
  | zero => intro dst db sb n; simp [copyWords]
  | succ m ih =>
    intro dst db sb n
    show copyWords (copyWords (writeWord dst db (readWord src sb)) (db + 1) src (sb + 1) m)
        (db + (m + 1)) src (sb + (m + 1)) n = _
    rw [show db + (m + 1) = (db + 1) + m from by omega,
      show sb + (m + 1) = (sb + 1) + m from by omega, ih,
      show m + 1 + n = (m + n) + 1 from by omega]
    rfl

/-! ### Transfer normal form -/

theorem land_fifteen (size : Nat) : size &&& 0xF = size % 16 := by
  have h := land_two_pow_sub_one_eq_mod size 4
  norm_num at h
  exact h

theorem land_not32_fifteen (size : Nat) (h : size < 2 ^ 32) :
    size &&& not32 0xF = 16 * (size / 16) := by
  apply Nat.eq_of_testBit_eq
  intro i
  rw [Nat.testBit_land, testBit_not32]
  have h15 : (0xF : Nat).testBit i = decide (i < 4) := by
    have h2 := Nat.testBit_two_pow_sub_one 4 i
    norm_num at h2
    exact h2
  have hr : 16 * (size / 16) = (size >>> 4) <<< 4 := by
    rw [Nat.shiftRight_eq_div_pow, Nat.shiftLeft_eq]
    norm_num [Nat.mul_comm]
  rw [h15, hr, Nat.testBit_shiftLeft, Nat.testBit_shiftRight]
  by_cases h4 : i < 4
  · simp [h4, show i < 32 from by omega, show ¬(i ≥ 4) from by omega]
  · rw [show 4 + (i - 4) = i from by omega]
    by_cases h32 : i < 32
    · simp [h4, h32, show i ≥ 4 from by omega]
    · rw [testBit_false_of_lt_of_le h (by omega)]
      simp

theorem usbdev_transfer_eq (dst : Mem) (db : Nat) (src : Mem) (sb : Nat)
    (size : Nat) (dir : Bool) (h : size < 2 ^ 32) :
    usbdev_transfer dst db src sb size dir =
      (if size % 4 = 0 then copyWords dst db src sb (size / 4)
       else if dir then
        writeWord (copyWords dst db src sb (size / 4)) (db + size / 4)
          (src (4 * (sb + size / 4)) |||
            (if 1 < size % 4 then src (4 * (sb + size / 4) + 1) <<< 8 else 0) |||
            (if 2 < size % 4 then src (4 * (sb + size / 4) + 2) <<< 16 else 0))
       else
        (if 2 < size % 4 then
          writeByte
            (if 1 < size % 4 then
              writeByte
                (writeByte (copyWords dst db src sb (size / 4))
                  (4 * (db + size / 4)) (readWord src (sb + size / 4)))
                (4 * (db + size / 4) + 1) (readWord src (sb + size / 4) >>> 8)
            else
              writeByte (copyWords dst db src sb (size / 4))
                (4 * (db + size / 4)) (readWord src (sb + size / 4)))
            (4 * (db + size / 4) + 2) (readWord src (sb + size / 4) >>> 16)
        else
          (if 1 < size % 4 then
            writeByte
              (writeByte (copyWords dst db src sb (size / 4))
                (4 * (db + size / 4)) (readWord src (sb + size / 4)))
              (4 * (db + size / 4) + 1) (readWord src (sb + size / 4) >>> 8)
          else
            writeByte (copyWords dst db src sb (size / 4))
              (4 * (db + size / 4)) (readWord src (sb + size / 4))))) := by
  simp only [usbdev_transfer, land_fifteen, land_not32_fifteen size h]
  rw [copyWords_append,
    show 16 * (size / 16) / 4 + size % 16 / 4 = size / 4 from by omega,
    show db + 16 * (size / 16) / 4 + size % 16 / 4 = db + size / 4 from by omega,
    show sb + 16 * (size / 16) / 4 + size % 16 / 4 = sb + size / 4 from by omega,
    show size % 16 % 4 = size % 4 from by omega]

/-! ### Byte-level behavior of the transfer engine -/

theorem transfer_toDevice_byte (dev src : Mem) (db size : Nat)
    (h : size < 2 ^ 32) (hsrc : ∀ j, j < size → src j < 2 ^ 8) :
    ∀ i, i < size → usbdev_transfer dev db src 0 size true (4 * db + i) = src i := by
  intro i hi
  rw [usbdev_transfer_eq dev db src 0 size true h]
  by_cases hreg : i < 4 * (size / 4)
  · have hword : i / 4 < size / 4 := by omega
    have hcw : copyWords dev db src 0 (size / 4) (4 * (db + i / 4) + i % 4) =
        readWord src (0 + i / 4) / 2 ^ (8 * (i % 4)) % 2 ^ 8 :=
      copyWords_byte src (size / 4) dev db 0 (i / 4) (i % 4) hword (by omega)
    have hrw : readWord src (i / 4) / 2 ^ (8 * (i % 4)) % 2 ^ 8 =
        src (4 * (i / 4) + i % 4) :=
      readWord_byte src (i / 4) (i % 4) (by omega) (fun k hk => hsrc _ (by omega))
    by_cases ht : size % 4 = 0
    · rw [if_pos ht, show 4 * db + i = 4 * (db + i / 4) + i % 4 from by omega, hcw,
        show (0 : Nat) + i / 4 = i / 4 from by omega, hrw,
        show 4 * (i / 4) + i % 4 = i from by omega]
    · rw [if_neg ht, if_pos rfl, writeWord_frame _ _ _ _ (by omega),
        show 4 * db + i = 4 * (db + i / 4) + i % 4 from by omega, hcw,
        show (0 : Nat) + i / 4 = i / 4 from by omega, hrw,
        show 4 * (i / 4) + i % 4 = i from by omega]
  · have ht : size % 4 ≠ 0 := by omega
    rw [if_neg ht, if_pos rfl,
      show 4 * db + i = 4 * (db + size / 4) + (i - 4 * (size / 4)) from by omega,
      writeWord_byte _ _ _ _ (by omega),
      show (0 : Nat) + size / 4 = size / 4 from by omega]
    have hb0 : src (4 * (size / 4)) < 256 := by
      have := hsrc (4 * (size / 4)) (by omega)
      omega
    have h4 : size % 4 = 1 ∨ size % 4 = 2 ∨ size % 4 = 3 := by omega
    rcases h4 with h1 | h2 | h3
    · rw [if_neg (by omega), if_neg (by omega), Nat.or_zero, Nat.or_zero,
        show i - 4 * (size / 4) = 0 from by omega]
      norm_num
      rw [show 4 * (size / 4) = i from by omega]
      exact Nat.mod_eq_of_lt (by have := hsrc i hi; omega)
    · have hb1 : src (4 * (size / 4) + 1) < 256 := by
        have := hsrc (4 * (size / 4) + 1) (by omega)
        omega
      have hsum : src (4 * (size / 4)) ||| src (4 * (size / 4) + 1) <<< 8 =
          src (4 * (size / 4)) + 2 ^ 8 * src (4 * (size / 4) + 1) := by
        rw [Nat.shiftLeft_eq, Nat.mul_comm (src (4 * (size / 4) + 1)) (2 ^ 8)]
        exact lor_two_pow_mul (src (4 * (size / 4))) (src (4 * (size / 4) + 1)) 8 (by omega)
      rw [if_pos (by omega), if_neg (by omega), hsum, Nat.or_zero]
      have hj : i - 4 * (size / 4) = 0 ∨ i - 4 * (size / 4) = 1 := by omega
      rcases hj with hj | hj
      · rw [hj]
        norm_num
        rw [show 4 * (size / 4) = i from by omega] at hb0 ⊢
        omega
      · rw [hj]
        norm_num
        rw [show 4 * (size / 4) + 1 = i from by omega] at hb1 ⊢
        omega
    · have hb1 : src (4 * (size / 4) + 1) < 256 := by
        have := hsrc (4 * (size / 4) + 1) (by omega)
        omega
      have hb2 : src (4 * (size / 4) + 2) < 256 := by
        have := hsrc (4 * (size / 4) + 2) (by omega)
        omega
      have hsum : src (4 * (size / 4)) ||| src (4 * (size / 4) + 1) <<< 8 =
          src (4 * (size / 4)) + 2 ^ 8 * src (4 * (size / 4) + 1) := by
        rw [Nat.shiftLeft_eq, Nat.mul_comm (src (4 * (size / 4) + 1)) (2 ^ 8)]
        exact lor_two_pow_mul (src (4 * (size / 4))) (src (4 * (size / 4) + 1)) 8 (by omega)
      have hsum2 : src (4 * (size / 4)) + 2 ^ 8 * src (4 * (size / 4) + 1) |||
            src (4 * (size / 4) + 2) <<< 16 =
          src (4 * (size / 4)) + 2 ^ 8 * src (4 * (size / 4) + 1) +
            2 ^ 16 * src (4 * (size / 4) + 2) := by
        rw [Nat.shiftLeft_eq, Nat.mul_comm (src (4 * (size / 4) + 2)) (2 ^ 16)]
        exact lor_two_pow_mul (src (4 * (size / 4)) + 2 ^ 8 * src (4 * (size / 4) + 1))
          (src (4 * (size / 4) + 2)) 16 (by omega)
      rw [if_pos (by omega), if_pos (by omega), hsum, hsum2]
      have hj : i - 4 * (size / 4) = 0 ∨ i - 4 * (size / 4) = 1 ∨
          i - 4 * (size / 4) = 2 := by omega
      rcases hj with hj | hj | hj
      · rw [hj]
        norm_num
        rw [show 4 * (size / 4) = i from by omega] at hb0 ⊢
        omega
      · rw [hj]
        norm_num
        rw [show 4 * (size / 4) + 1 = i from by omega] at hb1 ⊢
        omega
      · rw [hj]
        norm_num
        rw [show 4 * (size / 4) + 2 = i from by omega] at hb2 ⊢
        omega

theorem transfer_toDevice_cell_lt (dev src : Mem) (db size : Nat)
    (h : size < 2 ^ 32) :
    ∀ a, 4 * db ≤ a → a < 4 * db + 4 * ((size + 3) / 4) →
      usbdev_transfer dev db src 0 size true a < 2 ^ 8 := by
  intro a ha1 ha2
  rw [usbdev_transfer_eq dev db src 0 size true h]
  by_cases ht : size % 4 = 0
  · rw [if_pos ht]
    have hwords : (size + 3) / 4 = size / 4 := by omega
    rw [hwords] at ha2
    rw [show a = 4 * (db + (a - 4 * db) / 4) + (a - 4 * db) % 4 from by omega,
      copyWords_byte src (size / 4) dev db 0 ((a - 4 * db) / 4) ((a - 4 * db) % 4)
        (by omega) (by omega)]
    exact Nat.mod_lt _ (by norm_num)
  · rw [if_neg ht, if_pos rfl]
    by_cases hreg : a < 4 * (db + size / 4)
    · rw [writeWord_frame _ _ _ _ (by omega),
        show a = 4 * (db + (a - 4 * db) / 4) + (a - 4 * db) % 4 from by omega,
        copyWords_byte src (size / 4) dev db 0 ((a - 4 * db) / 4) ((a - 4 * db) % 4)
          (by omega) (by omega)]
      exact Nat.mod_lt _ (by norm_num)
    · have hceil : (size + 3) / 4 = size / 4 + 1 := by omega
      rw [show a = 4 * (db + size / 4) + (a - 4 * (db + size / 4)) from by omega,
        writeWord_byte _ _ _ _ (by omega)]
      exact Nat.mod_lt _ (by norm_num)

theorem transfer_fromDevice_byte (dst dev : Mem) (db size : Nat)
    (h : size < 2 ^ 32)
    (hdev : ∀ a, 4 * db ≤ a → a < 4 * db + 4 * ((size + 3) / 4) → dev a < 2 ^ 8) :
    ∀ i, i < size → usbdev_transfer dst 0 dev db size false i = dev (4 * db + i) := by
  intro i hi
  rw [usbdev_transfer_eq dst 0 dev db size false h]
  have hrwb : ∀ w j, w < (size + 3) / 4 → j < 4 →
      readWord dev (db + w) / 2 ^ (8 * j) % 2 ^ 8 = dev (4 * (db + w) + j) :=
    fun w j hw hj =>
      readWord_byte dev (db + w) j hj (fun k hk => hdev _ (by omega) (by omega))
  by_cases ht : size % 4 = 0
  · rw [if_pos ht,
      show i = 4 * (0 + i / 4) + i % 4 from by omega,
      copyWords_byte dev (size / 4) dst 0 db (i / 4) (i % 4) (by omega) (by omega),
      hrwb (i / 4) (i % 4) (by omega) (by omega)]
    congr 1
    omega
  · rw [if_neg ht, if_neg (Bool.false_ne_true)]
    have hword : i < 4 * (size / 4) →
        copyWords dst 0 dev db (size / 4) i = dev (4 * db + i) := by
      intro hr
      rw [show i = 4 * (0 + i / 4) + i % 4 from by omega,
        copyWords_byte dev (size / 4) dst 0 db (i / 4) (i % 4) (by omega) (by omega),
        hrwb (i / 4) (i % 4) (by omega) (by omega)]
      congr 1
      omega
    have h4 : size % 4 = 1 ∨ size % 4 = 2 ∨ size % 4 = 3 := by omega
    rcases h4 with h1 | h2 | h3
    · rw [if_neg (by omega), if_neg (by omega)]
      by_cases hreg : i < 4 * (size / 4)
      · rw [writeByte_frame _ _ _ _ (by omega)]
        exact hword hreg
      · have hj : i = 4 * (0 + size / 4) := by omega
        rw [hj, writeByte_self]
        have := hrwb (size / 4) 0 (by omega) (by omega)
        norm_num at this ⊢
        rw [this]
        congr 1
        omega
    · rw [if_neg (by omega), if_pos (by omega)]
      by_cases hreg : i < 4 * (size / 4)
      · rw [writeByte_frame _ _ _ _ (by omega), writeByte_frame _ _ _ _ (by omega)]
        exact hword hreg
      · have hj : i = 4 * (0 + size / 4) ∨ i = 4 * (0 + size / 4) + 1 := by omega
        rcases hj with hj | hj
        · rw [hj, writeByte_frame _ _ _ _ (by omega), writeByte_self]
          have := hrwb (size / 4) 0 (by omega) (by omega)
          norm_num at this ⊢
          rw [this]
          congr 1
          omega
        · rw [hj, writeByte_self, Nat.shiftRight_eq_div_pow]
          have := hrwb (size / 4) 1 (by omega) (by omega)
          norm_num at this ⊢
          rw [this]
          congr 1
          omega
    · rw [if_pos (by omega), if_pos (by omega)]
      by_cases hreg : i < 4 * (size / 4)
      · rw [writeByte_frame _ _ _ _ (by omega), writeByte_frame _ _ _ _ (by omega),
          writeByte_frame _ _ _ _ (by omega)]
        exact hword hreg
      · have hj : i = 4 * (0 + size / 4) ∨ i = 4 * (0 + size / 4) + 1 ∨
            i = 4 * (0 + size / 4) + 2 := by omega
        rcases hj with hj | hj | hj
        · rw [hj, writeByte_frame _ _ _ _ (by omega), writeByte_frame _ _ _ _ (by omega),
            writeByte_self]
          have := hrwb (size / 4) 0 (by omega) (by omega)
          norm_num at this ⊢
          rw [this]
          congr 1
          omega
        · rw [hj, writeByte_frame _ _ _ _ (by omega), writeByte_self,
            Nat.shiftRight_eq_div_pow]
          have := hrwb (size / 4) 1 (by omega) (by omega)
          norm_num at this ⊢
          rw [this]
          congr 1
          omega
        · rw [hj, writeByte_self, Nat.shiftRight_eq_div_pow]
          have := hrwb (size / 4) 2 (by omega) (by omega)
          norm_num at this ⊢
          rw [this]
          congr 1
          omega

/-! ### Supply-buffers lemmas -/

theorem usbStatus_setup (q : RxQueues) :
    (q.usbStatus &&& AvailableSetupFull ≠ 0) ↔
      q.setupCap ≤ q.setupQueue.length := by
  unfold RxQueues.usbStatus
  by_cases h1 : q.setupCap ≤ q.setupQueue.length <;>
    by_cases h2 : q.outCap ≤ q.outQueue.length <;>
      simp only [h1, h2, if_true, if_false, AvailableSetupFull, AvailableOutFull,
        iff_true, iff_false] <;> decide

theorem usbStatus_out (q : RxQueues) :
    (q.usbStatus &&& AvailableOutFull ≠ 0) ↔
      q.outCap ≤ q.outQueue.length := by
  unfold RxQueues.usbStatus
  by_cases h1 : q.setupCap ≤ q.setupQueue.length <;>
    by_cases h2 : q.outCap ≤ q.outQueue.length <;>
      simp only [h1, h2, if_true, if_false, AvailableSetupFull, AvailableOutFull,
        iff_true, iff_false] <;> decide

theorem mem_bitsFrom (x : Nat) :
    ∀ (fuel lo i : Nat), i ∈ bitsFrom x lo fuel →
      lo ≤ i ∧ i < lo + fuel ∧ x.testBit i = true := by
  intro fuel
  induction fuel with
  | zero => intro lo i hmem; exact absurd hmem (by simp [bitsFrom])
  | succ fuel ih =>
    intro lo i hmem
    simp only [bitsFrom] at hmem
    by_cases hx : x.testBit lo
    · rw [if_pos hx] at hmem
      rcases List.mem_cons.mp hmem with hmem | hmem
      · subst hmem
        exact ⟨le_refl _, by omega, hx⟩
      · have h := ih (lo + 1) i hmem
        exact ⟨by omega, by omega, h.2.2⟩
    · rw [if_neg hx] at hmem
      have h := ih (lo + 1) i hmem
      exact ⟨by omega, by omega, h.2.2⟩

theorem bitsFrom_nodup (x : Nat) :
    ∀ (fuel lo : Nat), (bitsFrom x lo fuel).Nodup := by
  intro fuel
  induction fuel with
  | zero => intro lo; simp [bitsFrom]
  | succ fuel ih =>
    intro lo
    simp only [bitsFrom]
    by_cases hx : x.testBit lo
    · rw [if_pos hx]
      refine List.Nodup.cons ?_ (ih (lo + 1))
      intro hmem
      have h := mem_bitsFrom x fuel (lo + 1) lo hmem
      omega
    · rw [if_neg hx]
      exact ih (lo + 1)

theorem bitsFrom_congr (x y : Nat) :
    ∀ (fuel lo : Nat), (∀ i, lo ≤ i → i < lo + fuel → x.testBit i = y.testBit i) →
      bitsFrom x lo fuel = bitsFrom y lo fuel := by
  intro fuel
  induction fuel with
  | zero => intro lo hcong; rfl
  | succ fuel ih =>
    intro lo hcong
    simp only [bitsFrom]
    rw [hcong lo (le_refl _) (by omega), ih (lo + 1) (fun i h1 h2 => hcong i (by omega) (by omega))]

theorem bitsFrom_filter (x y : Nat) (A : List Nat)
    (hA : ∀ i, y.testBit i = (x.testBit i && !decide (i ∈ A))) :
    ∀ (fuel lo : Nat), bitsFrom y lo fuel =
      (bitsFrom x lo fuel).filter (fun i => !decide (i ∈ A)) := by
  intro fuel
  induction fuel with
  | zero => intro lo; rfl
  | succ fuel ih =>
    intro lo
    simp only [bitsFrom]
    by_cases hx : x.testBit lo
    · rw [if_pos hx]
      by_cases hm : lo ∈ A
      · have hy : y.testBit lo = false := by
          rw [hA lo]
          simp [hm]
        rw [if_neg (by rw [hy]; exact Bool.false_ne_true), ih (lo + 1),
          List.filter_cons_of_neg (by simp [hm])]
      · have hy : y.testBit lo = true := by
          rw [hA lo]
          simp [hx, hm]
        rw [if_pos hy, ih (lo + 1), List.filter_cons_of_pos (by simp [hm])]
    · have hy : y.testBit lo = false := by
        rw [hA lo]
        simp [hx]
      rw [if_neg hx, if_neg (by rw [hy]; exact Bool.false_ne_true), ih (lo + 1)]

theorem filter_append_split (T D : List Nat) (hd : ∀ a ∈ D, a ∉ T) :
    (T ++ D).filter (fun x => !decide (x ∈ T)) = D := by
  rw [List.filter_append]
  have h1 : T.filter (fun x => !decide (x ∈ T)) = [] :=
    List.filter_eq_nil_iff.mpr (fun a ha => by simp [ha])
  have h2 : D.filter (fun x => !decide (x ∈ T)) = D :=
    List.filter_eq_self.mpr (fun a ha => by simp [hd a ha])
  rw [h1, h2, List.nil_append]

theorem filter_take_drop (L : List Nat) (k : Nat) (h : L.Nodup) :
    L.filter (fun x => !decide (x ∈ L.take k)) = L.drop k := by
  have hd : ∀ a ∈ L.drop k, a ∉ L.take k := by
    intro a ha hmem
    exact (List.disjoint_take_drop h (le_refl k)) hmem ha
  have hs := filter_append_split (L.take k) (L.drop k) hd
  rw [List.take_append_drop] at hs
  exact hs

theorem supplySpecGo_map :
    ∀ (l : List Nat) (a b : Nat), (supplySpecGo a b l).map Prod.snd = l.take (a + b) := by
  intro l
  induction l with
  | nil => intro a b; simp [supplySpecGo]
  | cons x xs ih =>
    intro a b
    simp only [supplySpecGo]
    by_cases ha : a = 0
    · subst ha
      by_cases hb : b = 0
      · subst hb
        rw [if_neg (by omega), if_neg (by omega)]
        rfl
      · rw [if_neg (by omega), if_pos hb]
        simp only [List.map_cons]
        rw [ih 0 (b - 1), List.take_cons (by omega),
          show 0 + (b - 1) = 0 + b - 1 from by omega]
    · rw [if_pos ha]
      simp only [List.map_cons]
      rw [ih (a - 1) b, List.take_cons (by omega),
        show a - 1 + b = a + b - 1 from by omega]

theorem supplyGo_correct :
    ∀ (fuel : Nat) (q : RxQueues) (cur bufNum : Nat), cur < 2 ^ 32 →
      (supplyGo q cur bufNum fuel).2.2 =
          supplySpecGo (q.setupCap - q.setupQueue.length)
            (q.outCap - q.outQueue.length) (bitsFrom cur bufNum fuel)
        ∧ ∀ i, (supplyGo q cur bufNum fuel).2.1.testBit i =
            (cur.testBit i &&
              !decide (i ∈ (supplyGo q cur bufNum fuel).2.2.map Prod.snd)) := by
  intro fuel
  induction fuel with
  | zero =>
    intro q cur bufNum h32
    exact ⟨rfl, fun i => by simp [supplyGo]⟩
  | succ fuel ih =>
    intro q cur bufNum h32
    by_cases hbit : cur.testBit bufNum
    case neg =>
      have hz : ¬(cur &&& (1 <<< bufNum) ≠ 0) := by
        rw [land_one_shiftLeft_ne_zero]
        simp [hbit]
      have hstep : supplyGo q cur bufNum (fuel + 1) = supplyGo q cur (bufNum + 1) fuel := by
        simp only [supplyGo]
        rw [if_neg hz]
      have hbfe : bitsFrom cur bufNum (fuel + 1) = bitsFrom cur (bufNum + 1) fuel := by
        simp only [bitsFrom]
        rw [if_neg hbit]
      rw [hstep, hbfe]
      exact ih q cur (bufNum + 1) h32
    case pos =>
      have hn : bufNum < 32 := by
        by_contra hge
        rw [testBit_false_of_lt_of_le h32 (by omega)] at hbit
        exact Bool.false_ne_true hbit
      have hnz : cur &&& (1 <<< bufNum) ≠ 0 := (land_one_shiftLeft_ne_zero _ _).mpr hbit
      have hbfc : bitsFrom cur bufNum (fuel + 1) = bufNum :: bitsFrom cur (bufNum + 1) fuel := by
        simp only [bitsFrom]
        rw [if_pos hbit]
      have hcbit : ∀ i, (cur &&& not32 (1 <<< bufNum)).testBit i
          = (cur.testBit i && !decide (i = bufNum)) :=
        fun i => clearBit32_testBit cur bufNum i h32
      have hcur32 : cur &&& not32 (1 <<< bufNum) < 2 ^ 32 := by
        have h := Nat.and_lt_two_pow (not32 (1 <<< bufNum)) h32
        rwa [Nat.and_comm] at h
      have hbits2 : bitsFrom (cur &&& not32 (1 <<< bufNum)) (bufNum + 1) fuel
          = bitsFrom cur (bufNum + 1) fuel :=
        bitsFrom_congr _ _ fuel (bufNum + 1)
          (fun i h1 h2 => by rw [hcbit i]; simp [show ¬(i = bufNum) from by omega])
      by_cases hsf : q.usbStatus &&& AvailableSetupFull ≠ 0
      · have hs0 : q.setupCap - q.setupQueue.length = 0 := by
          have hle := (usbStatus_setup q).mp hsf
          omega
        by_cases hof : q.usbStatus &&& AvailableOutFull ≠ 0
        · have hstep : supplyGo q cur bufNum (fuel + 1) = (q, cur, []) := by
            simp only [supplyGo]
            rw [if_pos hnz, if_pos hsf, if_pos hof]
          have ho0 : q.outCap - q.outQueue.length = 0 := by
            have hle := (usbStatus_out q).mp hof
            omega
          rw [hstep, hbfc, hs0, ho0]
          constructor
          · show ([] : List (Bool × Nat)) = _
            simp only [supplySpecGo]
            rw [if_neg (by omega), if_neg (by omega)]
          · intro i
            show cur.testBit i = _
            simp
        · have hstep : supplyGo q cur bufNum (fuel + 1) =
              ((supplyGo (q.pushOut bufNum) (cur &&& not32 (1 <<< bufNum)) (bufNum + 1) fuel).1,
               (supplyGo (q.pushOut bufNum) (cur &&& not32 (1 <<< bufNum)) (bufNum + 1) fuel).2.1,
               (false, bufNum) ::
                 (supplyGo (q.pushOut bufNum) (cur &&& not32 (1 <<< bufNum)) (bufNum + 1) fuel).2.2) := by
            simp only [supplyGo]
            rw [if_pos hnz, if_pos hsf, if_neg hof]
          obtain ⟨ih1, ih2⟩ :=
            ih (q.pushOut bufNum) (cur &&& not32 (1 <<< bufNum)) (bufNum + 1) hcur32
          have honz : q.outCap - q.outQueue.length ≠ 0 := by
            have hnle : ¬ q.outCap ≤ q.outQueue.length :=
              fun hle => hof ((usbStatus_out q).mpr hle)
            omega
          have hrooms : (q.pushOut bufNum).setupCap - (q.pushOut bufNum).setupQueue.length
              = 0 := by
            have hle := (usbStatus_setup q).mp hsf
            simp only [RxQueues.pushOut]
            omega
          have hroomo : (q.pushOut bufNum).outCap - (q.pushOut bufNum).outQueue.length
              = q.outCap - q.outQueue.length - 1 := by
            simp only [RxQueues.pushOut, List.length_append, List.length_cons,
              List.length_nil]
            omega
          constructor
          · rw [hstep]
            show (false, bufNum) :: _ = _
            rw [ih1, hbits2, hbfc, hs0, hrooms, hroomo]
            simp only [supplySpecGo]
            rw [if_neg (by omega), if_pos honz]
          · intro i
            rw [hstep]
            show (supplyGo _ _ _ fuel).2.1.testBit i = _
            rw [ih2 i, hcbit i]
            simp only [List.map_cons, List.mem_cons]
            by_cases hieq : i = bufNum
            · subst hieq
              simp
            · simp [hieq, Bool.and_assoc]
      · have hstep : supplyGo q cur bufNum (fuel + 1) =
            ((supplyGo (q.pushSetup bufNum) (cur &&& not32 (1 <<< bufNum)) (bufNum + 1) fuel).1,
             (supplyGo (q.pushSetup bufNum) (cur &&& not32 (1 <<< bufNum)) (bufNum + 1) fuel).2.1,
             (true, bufNum) ::
               (supplyGo (q.pushSetup bufNum) (cur &&& not32 (1 <<< bufNum)) (bufNum + 1) fuel).2.2) := by
          simp only [supplyGo]
          rw [if_pos hnz, if_neg hsf]
        obtain ⟨ih1, ih2⟩ :=
          ih (q.pushSetup bufNum) (cur &&& not32 (1 <<< bufNum)) (bufNum + 1) hcur32
        have hsnz : q.setupCap - q.setupQueue.length ≠ 0 := by
          have hnle : ¬ q.setupCap ≤ q.setupQueue.length :=
            fun hle => hsf ((usbStatus_setup q).mpr hle)
          omega
        have hrooms : (q.pushSetup bufNum).setupCap - (q.pushSetup bufNum).setupQueue.length
            = q.setupCap - q.setupQueue.length - 1 := by
          simp only [RxQueues.pushSetup, List.length_append, List.length_cons,
            List.length_nil]
          omega
        have hroomo : (q.pushSetup bufNum).outCap - (q.pushSetup bufNum).outQueue.length
            = q.outCap - q.outQueue.length := by
          simp only [RxQueues.pushSetup]
        constructor
        · rw [hstep]
          show (true, bufNum) :: _ = _
          rw [ih1, hbits2, hbfc, hrooms, hroomo]
          simp only [supplySpecGo]
          rw [if_pos hsnz]
        · intro i
          rw [hstep]
          show (supplyGo _ _ _ fuel).2.1.testBit i = _
          rw [ih2 i, hcbit i]
          simp only [List.map_cons, List.mem_cons]
          by_cases hieq : i = bufNum
          · subst hieq
            simp
          · simp [hieq, Bool.and_assoc]

/-! ### Packet-collection and register read-modify-write lemmas -/

theorem packet_collectedGo_miss (s : UsbdevState) (buf0 sent : Nat) :
    ∀ (fuel ep : Nat), (∀ j, ep ≤ j → j < ep + fuel → sent.testBit j = false) →
      packet_collectedGo s buf0 sent ep fuel = (s, ep + fuel, buf0, -1) := by
  intro fuel
  induction fuel with
  | zero => intro ep hmiss; rfl
  | succ fuel ih =>
    intro ep hmiss
    have hz : ¬(sent &&& (1 <<< ep) ≠ 0) := by
      rw [land_one_shiftLeft_ne_zero, hmiss ep (le_refl _) (by omega)]
      simp
    simp only [packet_collectedGo]
    rw [if_neg hz, ih (ep + 1) (fun j h1 h2 => hmiss j (by omega) (by omega)),
      show ep + 1 + fuel = ep + (fuel + 1) from by omega]

theorem packet_collectedGo_hit (s : UsbdevState) (buf0 sent : Nat) :
    ∀ (fuel ep e : Nat), ep ≤ e → e < ep + fuel → sent.testBit e = true →
      (∀ j, ep ≤ j → j < e → sent.testBit j = false) →
      packet_collectedGo s buf0 sent ep fuel =
        ({ s with inSent := s.inSent &&& not32 (1 <<< e) }, e,
          (s.configIn e &&& ConfigInBufferIdMask) >>> 0, 0) := by
  intro fuel
  induction fuel with
  | zero => intro ep e h1 h2 h3 h4; exact absurd h2 (by omega)
  | succ fuel ih =>
    intro ep e h1 h2 h3 h4
    simp only [packet_collectedGo]
    by_cases heq : ep = e
    · subst heq
      rw [if_pos ((land_one_shiftLeft_ne_zero _ _).mpr h3)]
    · have hz : ¬(sent &&& (1 <<< ep) ≠ 0) := by
        rw [land_one_shiftLeft_ne_zero, h4 ep (le_refl _) (by omega)]
        simp
      rw [if_neg hz,
        ih (ep + 1) e (by omega) (by omega) h3 (fun j ha hb => h4 j (by omega) hb)]

theorem rmw_bit (old n : Nat) (flag : Bool) (hold : old < 2 ^ 32) :
    ∀ i, ((old &&& not32 (1 <<< n)) ||| (if flag then 1 <<< n else 0)).testBit i
      = if i = n then flag else old.testBit i := by
  intro i
  rw [Nat.testBit_lor, clearBit32_testBit old n i hold]
  by_cases hin : i = n
  · subst hin
    cases flag <;> simp [testBit_one_shiftLeft]
  · have h1 : (1 <<< n).testBit i = false := by
      rw [testBit_one_shiftLeft]
      simp [Ne.symm hin]
    cases flag
    · simp [hin]
    · rw [if_pos rfl, h1]
      simp [hin]

theorem testBit_add_mul_two_pow (a b n i : Nat) (ha : a < 2 ^ n) :
    (a + 2 ^ n * b).testBit i = if i < n then a.testBit i else b.testBit (i - n) := by
  rw [← lor_two_pow_mul a b n ha, Nat.testBit_lor]
  by_cases h : i < n
  · have hb : (2 ^ n * b).testBit i = false := by
      rw [Nat.mul_comm, ← Nat.shiftLeft_eq, Nat.testBit_shiftLeft]
      simp [show ¬(i ≥ n) from by omega]
    rw [if_pos h, hb]
    simp
  · have h1 : a.testBit i = false := testBit_false_of_lt_of_le ha (by omega)
    have h2 : (2 ^ n * b).testBit i = b.testBit (i - n) := by
      rw [Nat.mul_comm, ← Nat.shiftLeft_eq, Nat.testBit_shiftLeft]
      simp [show i ≥ n from by omega]
    rw [if_neg h, h1, h2]
    simp

theorem configure_out_endpoint_pos (s : UsbdevState) (ep : Nat)
    (enabled setup iso : Bool) (hep : ep < MaxEndpoints) :
    configure_out_endpoint s ep enabled setup iso =
      ({ s with
          endpointOutEnable :=
            (s.endpointOutEnable &&& not32 (1 <<< ep)) ||| (if enabled then 1 <<< ep else 0),
          receiveEnableSetup :=
            (s.receiveEnableSetup &&& not32 (1 <<< ep)) ||| (if setup then 1 <<< ep else 0),
          receiveEnableOut :=
            (s.receiveEnableOut &&& not32 (1 <<< ep)) ||| (if enabled then 1 <<< ep else 0),
          outIsochronous :=
            (s.outIsochronous &&& not32 (1 <<< ep)) ||| (if iso then 1 <<< ep else 0) }, 0) := by
  unfold configure_out_endpoint
  rw [if_pos hep]

theorem configure_in_endpoint_pos (s : UsbdevState) (ep : Nat)
    (enabled iso : Bool) (hep : ep < MaxEndpoints) :
    configure_in_endpoint s ep enabled iso =
      ({ s with
          endpointInEnable :=
            (s.endpointInEnable &&& not32 (1 <<< ep)) ||| (if enabled then 1 <<< ep else 0),
          inIsochronous :=
            (s.inIsochronous &&& not32 (1 <<< ep)) ||| (if iso then 1 <<< ep else 0) }, 0) := by
  unfold configure_in_endpoint
  rw [if_pos hep]

theorem set_ep_stalling_pos (s : UsbdevState) (ep : Nat)
    (stalling : Bool) (hep : ep < MaxEndpoints) :
    set_ep_stalling s ep stalling =
      ({ s with
          outStall := (s.outStall &&& not32 (1 <<< ep)) ||| (if stalling then 1 <<< ep else 0),
          inStall := (s.inStall &&& not32 (1 <<< ep)) ||| (if stalling then 1 <<< ep else 0) }, 0) := by
  unfold set_ep_stalling
  rw [if_pos hep]

/-! ### Claim theorems -/

/-- C6: whenever the `ReceiveDepth` field (bits 24-27) of the status register
is zero, `recv_packet` returns `NoPacketAvailable` (`-1`) immediately without
popping the receive FIFO and without mutating the state or any of its output
parameters (`ep`, `buf_num`, `size`, `is_setup`, and the data buffer). -/
theorem c6_recv_packet_empty (s : UsbdevState) (ep0 buf0 size0 : Nat)
    (isSetup0 : Bool) (data : Mem)
    (h : s.usbStatus &&& ReceiveDepthMask = 0) :
    recv_packet s ep0 buf0 size0 isSetup0 data =
      (s, ep0, buf0, size0, isSetup0, data, -1) := by
  unfold recv_packet
  rw [if_neg (by simp [h])]

/-- C10: when no in-sent bit is set for endpoints 0-11, `packet_collected`
returns `NoCompletedSend` (`-1`) but still leaves its `ep` output equal to
`MaxEndpoints = 12` (the scan loop's exit value), while `buf_num` keeps the
caller's value `buf0` and the state is unchanged. -/
theorem c10_packet_collected_error_outputs (s : UsbdevState) (buf0 : Nat)
    (h : s.inSent &&& (2 ^ 12 - 1) = 0) :
    packet_collected s buf0 = (s, MaxEndpoints, buf0, -1) := by
  have hME : MaxEndpoints = 12 := rfl
  have hmiss : ∀ j, 0 ≤ j → j < 0 + MaxEndpoints → s.inSent.testBit j = false := by
    intro j _ hj
    have hj12 : j < 12 := by omega
    have h1 : (s.inSent &&& (2 ^ 12 - 1)).testBit j = Nat.testBit 0 j := by rw [h]
    rw [Nat.testBit_land, Nat.testBit_two_pow_sub_one, Nat.zero_testBit] at h1
    simpa [hj12] using h1
  unfold packet_collected
  rw [packet_collectedGo_miss s buf0 s.inSent MaxEndpoints 0 hmiss]
  norm_num

/-- C9: `send_packet` performs no range validation and always returns success
(`0`) for every `buf_num`, `ep` and `size`; it unconditionally writes the
`configIn` slot at index `ep` (and no other slot), so a call with
`ep ≥ MaxEndpoints = 12` writes past the end of the 12-entry `configIn`
array (indices `≥ MaxEndpoints` of the model's `configIn` map lie outside
the declared array). -/
theorem c9_send_packet_no_validation (s : UsbdevState) (buf_num ep : Nat)
    (data : Mem) (size : Nat) :
    (send_packet s buf_num ep data size).2.2 = 0
    ∧ (send_packet s buf_num ep data size).1.configIn ep
        = ((buf_num <<< 0) ||| (size <<< 8)) ||| ConfigInReady
    ∧ (∀ i, i ≠ ep → (send_packet s buf_num ep data size).1.configIn i = s.configIn i) := by
  refine ⟨rfl, ?_, ?_⟩
  · by_cases hs : size = 0 <;> simp [send_packet, updateConfigIn, hs]
  · intro i hne
    by_cases hs : size = 0 <;> simp [send_packet, updateConfigIn, hs, hne]

/-- C7: `set_device_address` returns `InvalidAddress` (`-1`) for every
address `≥ 0x80`, leaving the control register unchanged; for an address
`< 0x80` it returns success, stores the address in the `DeviceAddress`
field (bits 16-22) of the control register, and leaves every control bit
outside that field (e.g. the `Enable` bit 0) unchanged. -/
theorem c7_set_device_address (s : UsbdevState) (address : Nat)
    (hctl : s.usbControl < 2 ^ 32) :
    (0x80 ≤ address → set_device_address s address = (s, -1))
    ∧ (address < 0x80 →
        (set_device_address s address).2 = 0
        ∧ ((set_device_address s address).1.usbControl &&& DeviceAddressMask) >>> 16
            = address
        ∧ ∀ i, ¬(16 ≤ i ∧ i < 23) →
            (set_device_address s address).1.usbControl.testBit i
              = s.usbControl.testBit i) := by
  constructor
  · intro hge
    unfold set_device_address
    rw [if_neg (by omega)]
  · intro hlt
    have hM : ∀ i, DeviceAddressMask.testBit i = decide (16 ≤ i ∧ i < 23) := by
      intro i
      unfold DeviceAddressMask
      rw [Nat.testBit_shiftLeft]
      have h7 : (0x7F : Nat).testBit (i - 16) = decide (i - 16 < 7) := by
        have hh := Nat.testBit_two_pow_sub_one 7 (i - 16)
        norm_num at hh
        exact hh
      rw [h7]
      by_cases h1 : 16 ≤ i <;> by_cases h2 : i < 23
      · simp [h1, h2, show i - 16 < 7 from by omega]
      · simp [h1, h2, show ¬(i - 16 < 7) from by omega]
      · simp [h1]
      · simp [h1]
    have key : ∀ i,
        ((s.usbControl &&& not32 DeviceAddressMask) ||| (address <<< 16)).testBit i
          = if 16 ≤ i ∧ i < 23 then address.testBit (i - 16)
            else s.usbControl.testBit i := by
      intro i
      rw [Nat.testBit_lor, Nat.testBit_land, testBit_not32, hM i,
        Nat.testBit_shiftLeft]
      by_cases h1 : 16 ≤ i ∧ i < 23
      · rw [if_pos h1]
        simp [h1, h1.1, show i < 32 from by omega]
      · rw [if_neg h1]
        have hdec : decide (16 ≤ i ∧ i < 23) = false := decide_eq_false h1
        by_cases h16 : 16 ≤ i
        · have h23 : 23 ≤ i := by omega
          have haddr : address.testBit (i - 16) = false :=
            testBit_false_of_lt_of_le (show address < 2 ^ 7 from by omega) (by omega)
          by_cases h32 : i < 32
          · simp [hdec, h16, haddr, h32]
            exact fun _ => h23
          · rw [testBit_false_of_lt_of_le hctl (by omega)]
            simp [hdec, h16, haddr, h32]
        · simp [hdec, h16, show i < 32 from by omega]
    have hpos : set_device_address s address =
        ({ s with usbControl :=
            (s.usbControl &&& not32 DeviceAddressMask) ||| (address <<< 16) }, 0) := by
      unfold set_device_address
      rw [if_pos hlt]
    rw [hpos]
    refine ⟨rfl, ?_, ?_⟩
    · show (((s.usbControl &&& not32 DeviceAddressMask) ||| (address <<< 16)) &&&
          DeviceAddressMask) >>> 16 = address
      have hfield : ((s.usbControl &&& not32 DeviceAddressMask) ||| (address <<< 16)) &&&
          DeviceAddressMask = address <<< 16 := by
        apply Nat.eq_of_testBit_eq
        intro i
        rw [Nat.testBit_land, key i, hM i, Nat.testBit_shiftLeft]
        by_cases h1 : 16 ≤ i ∧ i < 23
        · simp [h1, h1.1]
        · have hdec : decide (16 ≤ i ∧ i < 23) = false := decide_eq_false h1
          rw [if_neg h1]
          by_cases h16 : 16 ≤ i
          · have h23 : 23 ≤ i := by
              rcases Nat.lt_or_ge i 23 with hcase | hcase
              · exact absurd ⟨h16, hcase⟩ h1
              · exact hcase
            have haddr : address.testBit (i - 16) = false :=
              testBit_false_of_lt_of_le (show address < 2 ^ 7 from by omega) (by omega)
            simp [hdec, h16, haddr]
            exact fun _ => h23
          · simp [hdec, h16]
      rw [hfield, Nat.shiftLeft_shiftRight]
    · intro i hni
      show ((s.usbControl &&& not32 DeviceAddressMask) ||| (address <<< 16)).testBit i
          = s.usbControl.testBit i
      rw [key i, if_neg hni]

/-- C5: for every state of the in-sent register, if some endpoint among
0-11 has its bit set, `packet_collected` returns success with `ep` the
lowest-numbered such endpoint, clears exactly that endpoint's bit of
`inSent` (and no other bit), and returns in `buf_num` the `BufferId` field
(bits 0-4) of that endpoint's `configIn` register; if no bit among 0-11 is
set, it returns `NoCompletedSend` (`-1`). -/
theorem c5_packet_collected (s : UsbdevState) (buf0 : Nat)
    (hsent : s.inSent < 2 ^ 32) :
    ((∀ e, e < MaxEndpoints → s.inSent.testBit e = false) →
        packet_collected s buf0 = (s, MaxEndpoints, buf0, -1))
    ∧ (∀ e, e < MaxEndpoints → s.inSent.testBit e = true →
        (∀ j, j < e → s.inSent.testBit j = false) →
        packet_collected s buf0 =
            ({ s with inSent := s.inSent &&& not32 (1 <<< e) }, e,
              (s.configIn e &&& ConfigInBufferIdMask) >>> 0, 0)
          ∧ ∀ i, (s.inSent &&& not32 (1 <<< e)).testBit i =
              (s.inSent.testBit i && !decide (i = e))) := by
  constructor
  · intro hmiss
    unfold packet_collected
    rw [packet_collectedGo_miss s buf0 s.inSent MaxEndpoints 0
      (fun j h1 h2 => hmiss j (by omega))]
    norm_num
  · intro e he hbit hlow
    refine ⟨?_, fun i => clearBit32_testBit s.inSent e i hsent⟩
    unfold packet_collected
    exact packet_collectedGo_hit s buf0 s.inSent MaxEndpoints 0 e (by omega)
      (by omega) hbit (fun j h1 h2 => hlow j h2)

/-- C3: each of `configure_out_endpoint`, `configure_in_endpoint` and
`set_ep_stalling`, called with `ep ≥ MaxEndpoints = 12`, returns
`InvalidEndpoint` (`-1`) and leaves the whole state (in particular
`endpointOutEnable`, `receiveEnableSetup`, `receiveEnableOut`,
`outIsochronous`, `endpointInEnable`, `inIsochronous`, `outStall`,
`inStall`) unchanged; with `ep < 12` each returns success and updates
exactly bit `ep` of its relevant parallel bitmask registers, leaving every
other bit and every other register unchanged. -/
theorem c3_endpoint_index_validation (s : UsbdevState) (ep : Nat)
    (enabled setup iso stalling : Bool)
    (hOE : s.endpointOutEnable < 2 ^ 32) (hRS : s.receiveEnableSetup < 2 ^ 32)
    (hRO : s.receiveEnableOut < 2 ^ 32) (hOI : s.outIsochronous < 2 ^ 32)
    (hIE : s.endpointInEnable < 2 ^ 32) (hII : s.inIsochronous < 2 ^ 32)
    (hOS : s.outStall < 2 ^ 32) (hIS : s.inStall < 2 ^ 32) :
    (MaxEndpoints ≤ ep →
      configure_out_endpoint s ep enabled setup iso = (s, -1)
      ∧ configure_in_endpoint s ep enabled iso = (s, -1)
      ∧ set_ep_stalling s ep stalling = (s, -1))
    ∧ (ep < MaxEndpoints →
      ((configure_out_endpoint s ep enabled setup iso).2 = 0
        ∧ (configure_in_endpoint s ep enabled iso).2 = 0
        ∧ (set_ep_stalling s ep stalling).2 = 0)
      ∧ (∀ i,
          ((configure_out_endpoint s ep enabled setup iso).1.endpointOutEnable.testBit i
            = if i = ep then enabled else s.endpointOutEnable.testBit i)
          ∧ ((configure_out_endpoint s ep enabled setup iso).1.receiveEnableSetup.testBit i
            = if i = ep then setup else s.receiveEnableSetup.testBit i)
          ∧ ((configure_out_endpoint s ep enabled setup iso).1.receiveEnableOut.testBit i
            = if i = ep then enabled else s.receiveEnableOut.testBit i)
          ∧ ((configure_out_endpoint s ep enabled setup iso).1.outIsochronous.testBit i
            = if i = ep then iso else s.outIsochronous.testBit i)
          ∧ ((configure_in_endpoint s ep enabled iso).1.endpointInEnable.testBit i
            = if i = ep then enabled else s.endpointInEnable.testBit i)
          ∧ ((configure_in_endpoint s ep enabled iso).1.inIsochronous.testBit i
            = if i = ep then iso else s.inIsochronous.testBit i)
          ∧ ((set_ep_stalling s ep stalling).1.outStall.testBit i
            = if i = ep then stalling else s.outStall.testBit i)
          ∧ ((set_ep_stalling s ep stalling).1.inStall.testBit i
            = if i = ep then stalling else s.inStall.testBit i))
      ∧ ((configure_out_endpoint s ep enabled setup iso).1.endpointInEnable
            = s.endpointInEnable
        ∧ (configure_out_endpoint s ep enabled setup iso).1.inIsochronous
            = s.inIsochronous
        ∧ (configure_out_endpoint s ep enabled setup iso).1.outStall = s.outStall
        ∧ (configure_out_endpoint s ep enabled setup iso).1.inStall = s.inStall
        ∧ (configure_in_endpoint s ep enabled iso).1.endpointOutEnable
            = s.endpointOutEnable
        ∧ (configure_in_endpoint s ep enabled iso).1.receiveEnableSetup
            = s.receiveEnableSetup
        ∧ (configure_in_endpoint s ep enabled iso).1.receiveEnableOut
            = s.receiveEnableOut
        ∧ (configure_in_endpoint s ep enabled iso).1.outIsochronous
            = s.outIsochronous
        ∧ (set_ep_stalling s ep stalling).1.endpointOutEnable = s.endpointOutEnable
        ∧ (set_ep_stalling s ep stalling).1.endpointInEnable = s.endpointInEnable)) := by
  have hME : MaxEndpoints = 12 := rfl
  constructor
  · intro hge
    have hneg : ¬ ep < MaxEndpoints := by omega
    refine ⟨?_, ?_, ?_⟩
    · unfold configure_out_endpoint
      rw [if_neg hneg]
    · unfold configure_in_endpoint
      rw [if_neg hneg]
    · unfold set_ep_stalling
      rw [if_neg hneg]
  · intro hep
    rw [configure_out_endpoint_pos s ep enabled setup iso hep,
      configure_in_endpoint_pos s ep enabled iso hep,
      set_ep_stalling_pos s ep stalling hep]
    refine ⟨⟨rfl, rfl, rfl⟩, ?_, ?_⟩
    · intro i
      exact ⟨rmw_bit s.endpointOutEnable ep enabled hOE i,
        rmw_bit s.receiveEnableSetup ep setup hRS i,
        rmw_bit s.receiveEnableOut ep enabled hRO i,
        rmw_bit s.outIsochronous ep iso hOI i,
        rmw_bit s.endpointInEnable ep enabled hIE i,
        rmw_bit s.inIsochronous ep iso hII i,
        rmw_bit s.outStall ep stalling hOS i,
        rmw_bit s.inStall ep stalling hIS i⟩
    · exact ⟨rfl, rfl, rfl, rfl, rfl, rfl, rfl, rfl, rfl, rfl⟩

/-- C4: for every `send_packet(buf_num, ep, data, size)` call with a valid
endpoint (`ep < 12`), buffer id (`buf_num < 32`) and size field
(`size < 128`): if `size = 0` no bytes are copied into buffer memory; the
endpoint's `configIn` register receives exactly two writes, the first
carrying the buffer id in bits 0-4 and the size in bits 8-14 with the
`Ready` bit (bit 31) clear, and only the second write setting the `Ready`
bit on top of the first value. -/
theorem c4_send_packet_two_phase (s : UsbdevState) (buf_num ep : Nat)
    (data : Mem) (size : Nat) (hep : ep < MaxEndpoints) (hbuf : buf_num < 32)
    (hsize : size < 128) :
    (send_packet s buf_num ep data size).2.1 =
        [(buf_num <<< 0) ||| (size <<< 8),
          ((buf_num <<< 0) ||| (size <<< 8)) ||| ConfigInReady]
    ∧ (size = 0 → (send_packet s buf_num ep data size).1.bufferMem = s.bufferMem)
    ∧ ((buf_num <<< 0) ||| (size <<< 8)) &&& ConfigInReady = 0
    ∧ ((buf_num <<< 0) ||| (size <<< 8)) &&& ConfigInBufferIdMask = buf_num
    ∧ (((buf_num <<< 0) ||| (size <<< 8)) &&& ConfigInSizeMask) >>> 8 = size
    ∧ (send_packet s buf_num ep data size).1.configIn ep
        = ((buf_num <<< 0) ||| (size <<< 8)) ||| ConfigInReady := by
  have hsum : (buf_num <<< 0) ||| (size <<< 8) = buf_num + 2 ^ 8 * size := by
    rw [Nat.shiftLeft_zero, Nat.shiftLeft_eq, Nat.mul_comm size (2 ^ 8)]
    exact lor_two_pow_mul buf_num size 8 (by omega)
  refine ⟨?_, ?_, ?_, ?_, ?_, ?_⟩
  · simp [send_packet, updateConfigIn]
  · intro h0
    simp [send_packet, h0]
  · rw [hsum]
    unfold ConfigInReady
    rw [Nat.one_shiftLeft, Nat.and_two_pow,
      Nat.testBit_eq_false_of_lt (show buf_num + 2 ^ 8 * size < 2 ^ 31 from by omega)]
    simp
  · rw [hsum, show ConfigInBufferIdMask = 2 ^ 5 - 1 from by norm_num [ConfigInBufferIdMask],
      land_two_pow_sub_one_eq_mod]
    omega
  · have hfield : (buf_num + 2 ^ 8 * size) &&& ConfigInSizeMask = size <<< 8 := by
      apply Nat.eq_of_testBit_eq
      intro i
      unfold ConfigInSizeMask
      rw [Nat.testBit_land, Nat.testBit_shiftLeft, Nat.testBit_shiftLeft,
        testBit_add_mul_two_pow buf_num size 8 i (by omega)]
      have h7 : (0x7F : Nat).testBit (i - 8) = decide (i - 8 < 7) := by
        have hh := Nat.testBit_two_pow_sub_one 7 (i - 8)
        norm_num at hh
        exact hh
      rw [h7]
      by_cases h8 : i < 8
      · simp [h8, show ¬(i ≥ 8) from by omega]
      · by_cases h15 : i < 15
        · simp [h8, show i ≥ 8 from by omega, show i - 8 < 7 from by omega]
        · rw [if_neg h8,
            testBit_false_of_lt_of_le (show size < 2 ^ 7 from by omega) (by omega)]
          simp
    rw [hsum, hfield, Nat.shiftLeft_shiftRight]
  · simp [send_packet, updateConfigIn]

/-- C8: send/collect round-trip.  For `ep < 12` and `buf_num < 32`, calling
`send_packet(buf_num, ep, data, size)` and then simulating a hardware
completion — the in-sent register becoming a value whose bit `ep` is set
with no lower-numbered bit set — makes `packet_collected` return success
with exactly the pair `(ep, buf_num)` that was sent. -/
theorem c8_send_collect_roundtrip (s : UsbdevState) (buf_num ep size : Nat)
    (data : Mem) (v buf0 : Nat) (hep : ep < MaxEndpoints) (hbuf : buf_num < 32)
    (hsize : size < 256) (hvep : v.testBit ep = true)
    (hlow : ∀ j, j < ep → v.testBit j = false) :
    (packet_collected (withInSent (send_packet s buf_num ep data size).1 v) buf0).2.1 = ep
    ∧ (packet_collected
        (withInSent (send_packet s buf_num ep data size).1 v) buf0).2.2.1 = buf_num
    ∧ (packet_collected
        (withInSent (send_packet s buf_num ep data size).1 v) buf0).2.2.2 = 0 := by
  have hME : MaxEndpoints = 12 := rfl
  have hcfg : (send_packet s buf_num ep data size).1.configIn ep
      = ((buf_num <<< 0) ||| (size <<< 8)) ||| ConfigInReady := by
    by_cases hs : size = 0 <;> simp [send_packet, updateConfigIn, hs]
  have hin : (withInSent (send_packet s buf_num ep data size).1 v).inSent = v := rfl
  have hci : (withInSent (send_packet s buf_num ep data size).1 v).configIn
      = (send_packet s buf_num ep data size).1.configIn := rfl
  have hrun := packet_collectedGo_hit
    (withInSent (send_packet s buf_num ep data size).1 v) buf0 v
    MaxEndpoints 0 ep (by omega) (by omega) hvep (fun j h1 h2 => hlow j h2)
  have hgoal : packet_collected
      (withInSent (send_packet s buf_num ep data size).1 v) buf0 =
      ({ withInSent (send_packet s buf_num ep data size).1 v with
          inSent := (withInSent (send_packet s buf_num ep data size).1 v).inSent &&&
            not32 (1 <<< ep) }, ep,
        ((withInSent (send_packet s buf_num ep data size).1 v).configIn ep &&&
            ConfigInBufferIdMask) >>> 0, 0) := by
    unfold packet_collected
    rw [hin]
    exact hrun
  rw [hgoal]
  refine ⟨rfl, ?_, rfl⟩
  show ((withInSent (send_packet s buf_num ep data size).1 v).configIn ep &&&
      ConfigInBufferIdMask) >>> 0 = buf_num
  rw [hci, hcfg, Nat.shiftRight_zero,
    show ConfigInBufferIdMask = 2 ^ 5 - 1 from by norm_num [ConfigInBufferIdMask],
    land_two_pow_sub_one_eq_mod, mod_two_pow_lor, mod_two_pow_lor,
    Nat.shiftLeft_zero, Nat.shiftLeft_eq,
    show ConfigInReady % 2 ^ 5 = 0 from by decide,
    show size * 2 ^ 8 % 2 ^ 5 = 0 from by omega,
    Nat.mod_eq_of_lt (show buf_num < 2 ^ 5 from by omega)]
  simp

/-- C1: word-transfer round-trip.  For every size in `[0, 64]` and every
byte sequence of that length, copying the bytes into buffer memory with
`usbdev_transfer` in the to-device direction and then copying them back
with `usbdev_transfer` in the from-device direction yields the identical
byte sequence, including non-word-multiple sizes (the 1-3 trailing bytes
are packed little-endian into one final word on the way in and unpacked
from one final word on the way out). -/
theorem c1_word_transfer_roundtrip (src dev dst : Mem) (b size : Nat)
    (hsize : size ≤ 64) (hsrc : ∀ i, i < size → src i < 2 ^ 8) :
    readBytes
        (usbdev_transfer dst 0 (usbdev_transfer dev b src 0 size true) b size false)
        size
      = readBytes src size := by
  have h32 : size < 2 ^ 32 := by omega
  have hcell := transfer_toDevice_cell_lt dev src b size h32
  have hto := transfer_toDevice_byte dev src b size h32 hsrc
  have hfrom := transfer_fromDevice_byte dst
    (usbdev_transfer dev b src 0 size true) b size h32
    (fun a ha1 ha2 => hcell a ha1 ha2)
  unfold readBytes
  apply List.map_congr_left
  intro i hi
  have hi2 : i < size := List.mem_range.mp hi
  rw [hfrom i hi2, hto i hi2]

/-- C2 counterexample: the claim fails for input bitmaps with bits above 31.
With empty queues (capacities 4 and 8) and input `2 ^ 32 + 1`, only buffer 0
is assigned (the trace is `[(true, 0)]`), bit 32 of the input is set and is
never examined or assigned, yet the returned residual is `0` — not the
bitmap of unassigned bits, which would contain bit 32.  The cause is
`buf_avail &= ~(1U << buf_num)`: the 32-bit complement is zero-extended to
64 bits, so any successful assignment also clears bits 32-63. -/
theorem c2_counterexample :
    (supply_buffers ⟨4, 8, [], []⟩ (2 ^ 32 + 1)).2.1 = 0
    ∧ (2 ^ 32 + 1).testBit 32 = true
    ∧ (supply_buffers ⟨4, 8, [], []⟩ (2 ^ 32 + 1)).2.2 = [(true, 0)]
    ∧ ((supply_buffers ⟨4, 8, [], []⟩ (2 ^ 32 + 1)).2.1).testBit 32 = false := by
  decide

/-- C2 (amended to input bitmaps whose set bits all lie in the low 32 bits,
i.e. `buf_avail < 2 ^ 32`): `supply_buffers` processes the set bits in
ascending index order, assigning each to the SETUP queue while it is not
full (`AvailableSetupFull` clear in the status word), else to the OUT queue
while it is not full (`AvailableOutFull` clear), and stopping entirely once
both are full — this is exactly `supplySpecGo` on the ascending set-bit
list, driven by the remaining room of each queue.  Each assigned bit is
cleared and the residual is exactly the bitmap of unassigned bits.  When
both queues start empty the assigned buffers are the first
`setupCap + outCap` set bits and the residual's set bits are the remaining
high tail of the input. -/
theorem c2_supply_buffers (q : RxQueues) (buf_avail : Nat)
    (h32 : buf_avail < 2 ^ 32) :
    (supply_buffers q buf_avail).2.2 =
        supplySpecGo (q.setupCap - q.setupQueue.length)
          (q.outCap - q.outQueue.length) (setBits buf_avail)
    ∧ (∀ i, (supply_buffers q buf_avail).2.1.testBit i =
        (buf_avail.testBit i &&
          !decide (i ∈ (supply_buffers q buf_avail).2.2.map Prod.snd)))
    ∧ (q.setupQueue = [] → q.outQueue = [] →
        (supply_buffers q buf_avail).2.2.map Prod.snd =
            (setBits buf_avail).take (q.setupCap + q.outCap)
          ∧ setBits (supply_buffers q buf_avail).2.1 =
            (setBits buf_avail).drop (q.setupCap + q.outCap)) := by
  unfold supply_buffers setBits
  obtain ⟨h1, h2⟩ := supplyGo_correct NumBuffers q buf_avail 0 h32
  refine ⟨h1, h2, ?_⟩
  intro hsq hoq
  have hks : q.setupCap - q.setupQueue.length = q.setupCap := by
    rw [hsq]
    simp
  have hko : q.outCap - q.outQueue.length = q.outCap := by
    rw [hoq]
    simp
  have hmap : (supplyGo q buf_avail 0 NumBuffers).2.2.map Prod.snd =
      (bitsFrom buf_avail 0 NumBuffers).take (q.setupCap + q.outCap) := by
    rw [h1, hks, hko]
    exact supplySpecGo_map (bitsFrom buf_avail 0 NumBuffers) q.setupCap q.outCap
  refine ⟨hmap, ?_⟩
  have hres : ∀ i, ((supplyGo q buf_avail 0 NumBuffers).2.1).testBit i =
      (buf_avail.testBit i &&
        !decide (i ∈ (bitsFrom buf_avail 0 NumBuffers).take (q.setupCap + q.outCap))) := by
    intro i
    rw [h2 i, hmap]
  have hfil := bitsFrom_filter buf_avail (supplyGo q buf_avail 0 NumBuffers).2.1
    ((bitsFrom buf_avail 0 NumBuffers).take (q.setupCap + q.outCap)) hres NumBuffers 0
  rw [hfil]
  exact filter_take_drop (bitsFrom buf_avail 0 NumBuffers) (q.setupCap + q.outCap)
    (bitsFrom_nodup buf_avail NumBuffers 0)

/-! ### Witnesses: each claim theorem with a hypothesis, applied at a
concrete input with every hypothesis discharged there. -/

/-- Witness for C1 at size 7 with a concrete byte pattern. -/
theorem c1_witness :
    (∀ i, i < 7 → (fun j => (j * 7 + 3) % 256 : Mem) i < 2 ^ 8)
    ∧ readBytes
        (usbdev_transfer (fun _ => 99) 0
          (usbdev_transfer (fun _ => 170) (bufferWordBase 2)
            (fun j => (j * 7 + 3) % 256) 0 7 true)
          (bufferWordBase 2) 7 false) 7
      = readBytes (fun j => (j * 7 + 3) % 256) 7 :=
  ⟨by decide,
    c1_word_transfer_roundtrip (fun j => (j * 7 + 3) % 256) (fun _ => 170)
      (fun _ => 99) (bufferWordBase 2) 7 (by decide) (by decide)⟩

/-- Witness for the amended C2 with empty queues of capacities 4 and 8 and
the bitmap `0xFFFF`. -/
theorem c2_witness :
    (0xFFFF : Nat) < 2 ^ 32
    ∧ (supply_buffers ⟨4, 8, [], []⟩ 0xFFFF).2.2 =
        supplySpecGo
          ((⟨4, 8, [], []⟩ : RxQueues).setupCap -
            (⟨4, 8, [], []⟩ : RxQueues).setupQueue.length)
          ((⟨4, 8, [], []⟩ : RxQueues).outCap -
            (⟨4, 8, [], []⟩ : RxQueues).outQueue.length)
          (setBits 0xFFFF) :=
  ⟨by decide, (c2_supply_buffers ⟨4, 8, [], []⟩ 0xFFFF (by decide)).1⟩

/-- Witness for C3 at the invalid endpoint index 12. -/
theorem c3_witness :
    zeroState.endpointOutEnable < 2 ^ 32
    ∧ configure_out_endpoint zeroState 12 true false true = (zeroState, -1) :=
  ⟨by decide,
    ((c3_endpoint_index_validation zeroState 12 true false true false (by decide)
      (by decide) (by decide) (by decide) (by decide) (by decide) (by decide)
      (by decide)).1 (by decide)).1⟩

/-- Witness for C4 at endpoint 5, buffer 3, size 9. -/
theorem c4_witness :
    (5 : Nat) < MaxEndpoints ∧ (3 : Nat) < 32 ∧ (9 : Nat) < 128
    ∧ (send_packet zeroState 3 5 (fun _ => 1) 9).2.1 =
        [(3 <<< 0) ||| (9 <<< 8), ((3 <<< 0) ||| (9 <<< 8)) ||| ConfigInReady] :=
  ⟨by decide, by decide, by decide,
    (c4_send_packet_two_phase zeroState 3 5 (fun _ => 1) 9 (by decide) (by decide)
      (by decide)).1⟩

/-- Witness for C5 on a state with no in-sent bit set. -/
theorem c5_witness :
    zeroState.inSent < 2 ^ 32
    ∧ packet_collected zeroState 7 = (zeroState, MaxEndpoints, 7, -1) :=
  ⟨by decide, (c5_packet_collected zeroState 7 (by decide)).1 (by decide)⟩

/-- Witness for C6 on a state whose status register is zero. -/
theorem c6_witness :
    zeroState.usbStatus &&& ReceiveDepthMask = 0
    ∧ recv_packet zeroState 1 2 3 true (fun _ => 0) =
        (zeroState, 1, 2, 3, true, fun _ => 0, -1) :=
  ⟨by decide, c6_recv_packet_empty zeroState 1 2 3 true (fun _ => 0) (by decide)⟩

/-- Witness for C7 at addresses `0x7F` (success) and `0x80` (failure). -/
theorem c7_witness :
    zeroState.usbControl < 2 ^ 32
    ∧ ((set_device_address zeroState 0x7F).1.usbControl &&& DeviceAddressMask) >>> 16
        = 0x7F
    ∧ set_device_address zeroState 0x80 = (zeroState, -1) :=
  ⟨by decide,
    ((c7_set_device_address zeroState 0x7F (by decide)).2 (by decide)).2.1,
    (c7_set_device_address zeroState 0x80 (by decide)).1 (by decide)⟩

/-- Witness for C8 at endpoint 3, buffer 5, size 0, in-sent value `8`. -/
theorem c8_witness :
    (3 : Nat) < MaxEndpoints ∧ (5 : Nat) < 32 ∧ (0 : Nat) < 256
    ∧ Nat.testBit 8 3 = true
    ∧ (packet_collected (withInSent (send_packet zeroState 5 3 (fun _ => 0) 0).1 8)
        7).2.1 = 3 :=
  ⟨by decide, by decide, by decide, by decide,
    (c8_send_collect_roundtrip zeroState 5 3 0 (fun _ => 0) 8 7 (by decide)
      (by decide) (by decide) (by decide) (by decide)).1⟩

/-- Witness for C10 on a state with no in-sent bit set among 0-11. -/
theorem c10_witness :
    zeroState.inSent &&& (2 ^ 12 - 1) = 0
    ∧ packet_collected zeroState 9 = (zeroState, MaxEndpoints, 9, -1) :=
  ⟨by decide, c10_packet_collected_error_outputs zeroState 9 (by decide)⟩

end Usbdev

